import Mathlib

/-!
Shallow embedding of the Harp HRM core (TypeScript, `src/components/hrm/*`
and `src/types/hrm.ts`) in Lean 4.

Modelling conventions:
* JS `number` values (hours, rates, pay, multipliers) are modelled by `ℚ`.
* Timestamps (`Date.now()` / ISO strings, always compared and subtracted via
  `getTime()` in the source) are modelled by `Int` (milliseconds).
* Calendar days (the `date : string` field, `YYYY-MM-DD`, compared by
  equality and by chronological order after `new Date(...)`) are modelled
  by `Int` (a day index); month keys stay `String`.
* Nullable fields become `Option`; JS truthiness checks on them become
  `Option.isSome`, and the `x || 1.0` default is modelled by a test
  against the falsy value `0`.
* Handlers that bail out with an early `return`/toast before calling
  `onUpdateState` are modelled either as `Except err HRMState` (the error
  case means the state is left untouched) or as functions returning the
  input state unchanged, matching the source structure.
* Purely presentational `Employee` fields (phone, position, department,
  profile picture, ...) carry no logic and are omitted.
-/

namespace HRM

abbrev Time := Int
abbrev Day := Int

inductive Role
  | employee
  | manager
  | admin
deriving DecidableEq

structure Employee where
  id : String
  name : String
  email : String
  password : String
  managerId : Option String
  monthlyHourTarget : ℚ
  hourlyRate : ℚ
  role : Role
  compLeavesEarned : Int
  compLeavesUsed : Int
deriving DecidableEq

structure BreakLog where
  breakIn : Time
  breakOut : Option Time
deriving DecidableEq

inductive TimeLogStatus
  | checkedIn
  | checkedOut
  | incomplete
deriving DecidableEq

structure TimeLog where
  id : String
  employeeId : String
  date : Day
  checkIn : Option Time
  checkOut : Option Time
  breaks : List BreakLog
  totalHours : ℚ
  status : TimeLogStatus
deriving DecidableEq

inductive TaskStatus
  | pending
  | approved
  | commented
deriving DecidableEq

structure Task where
  id : String
  employeeId : String
  date : Day
  description : String
  hoursSpent : ℚ
  status : TaskStatus
  managerComment : Option String
  reviewedBy : Option String
  reviewedAt : Option Time
deriving DecidableEq

inductive LeaveStatus
  | pending
  | approved
  | rejected
deriving DecidableEq

structure LeaveRequest where
  id : String
  employeeId : String
  startDate : String
  endDate : String
  reason : String
  status : LeaveStatus
  requestedAt : Time
  reviewedBy : Option String
  reviewedAt : Option Time
  reviewComment : Option String
deriving DecidableEq

inductive PayrollStatus
  | pending
  | approved
  | paid
deriving DecidableEq

structure PayrollEntry where
  id : String
  employeeId : String
  month : String
  regularHours : ℚ
  overtimeHours : ℚ
  regularPay : ℚ
  overtimePay : ℚ
  totalPay : ℚ
  status : PayrollStatus
  processedBy : Option String
  processedAt : Option Time
deriving DecidableEq

structure OvertimeSettings where
  employeeId : String
  overtimeMultiplier : ℚ
deriving DecidableEq

structure AuditLog where
  id : String
  timestamp : Time
  userId : String
  userName : String
  action : String
  entityType : String
  entityId : String
  changes : String
deriving DecidableEq

structure HRMState where
  employees : List Employee
  timeLogs : List TimeLog
  tasks : List Task
  leaveRequests : List LeaveRequest
  payrollEntries : List PayrollEntry
  overtimeSettings : List OvertimeSettings
  auditLogs : List AuditLog
  currentUser : Option String
deriving DecidableEq

/-- The audit entry built inline by every handler:
`{ id: audit_${Date.now()}, timestamp, userId: employee.id,
   userName: employee.name, action, entityType, entityId, changes }`. -/
def mkAudit (now : Time) (actor : Employee)
    (action entityType entityId changes : String) : AuditLog :=
  { id := "audit_" ++ toString now
    timestamp := now
    userId := actor.id
    userName := actor.name
    action := action
    entityType := entityType
    entityId := entityId
    changes := changes }

/-- JS `String.prototype.trim()`: strips leading and trailing whitespace.
(Defined over the character list so that it is kernel-reducible.) -/
def strTrim (s : String) : String :=
  ⟨((s.data.dropWhile Char.isWhitespace).reverse.dropWhile Char.isWhitespace).reverse⟩

/-! ## Admin operations (`AdminView` handlers) -/

/-- The month filter inside `handleProcessPayroll`:
logs of this employee whose date lies in `[monthStart, monthEnd]` and whose
`checkOut` is set. -/
def monthLogsFor (s : HRMState) (emp : Employee) (monthStart monthEnd : Day) :
    List TimeLog :=
  s.timeLogs.filter (fun log =>
    log.employeeId == emp.id && decide (monthStart ≤ log.date) &&
      decide (log.date ≤ monthEnd) && log.checkOut.isSome)

/-- The body of the `state.employees.forEach` loop in `handleProcessPayroll`:
computes the would-be payroll entry for one employee, returning `none` when an
entry for `(employee, month)` already exists (the push is skipped). -/
def payrollFor (s : HRMState) (month : String) (monthStart monthEnd : Day)
    (actor : Employee) (now : Time) (emp : Employee) : Option PayrollEntry :=
  let monthLogs := monthLogsFor s emp monthStart monthEnd
  let totalHours : ℚ := monthLogs.foldl (fun sum log => sum + log.totalHours) 0
  let target := emp.monthlyHourTarget
  let compLeavesAvailable := emp.compLeavesEarned - emp.compLeavesUsed
  let regularHours := min totalHours target
  let overtimeHours : ℚ :=
    if totalHours > target ∧ compLeavesAvailable ≤ 0 then totalHours - target else 0
  let ovt := s.overtimeSettings.find? (fun o => o.employeeId == emp.id)
  -- `overtimeSettings?.overtimeMultiplier || 1.0`: absent record, or the JS
  -- falsy multiplier 0, both fall back to 1.0.
  let overtimeMultiplier : ℚ :=
    match ovt with
    | none => 1
    | some o => if o.overtimeMultiplier = 0 then 1 else o.overtimeMultiplier
  let regularPay := regularHours * emp.hourlyRate
  let overtimePay := overtimeHours * emp.hourlyRate * overtimeMultiplier
  let totalPay := regularPay + overtimePay
  let existing :=
    s.payrollEntries.find? (fun p => p.employeeId == emp.id && p.month == month)
  if existing.isSome then none
  else
    some
      { id := "payroll_" ++ toString now ++ "_" ++ emp.id
        employeeId := emp.id
        month := month
        regularHours := regularHours
        overtimeHours := overtimeHours
        regularPay := regularPay
        overtimePay := overtimePay
        totalPay := totalPay
        status := .pending
        processedBy := some actor.id
        processedAt := some now }

/-- Source `handleProcessPayroll(month)`: builds the new entries for every employee
without an existing `(employee, month)` entry; when none result it bails out
with a toast ("Payroll already processed for this month") and no state
change, otherwise appends the entries and one audit record. -/
def handleProcessPayroll (actor : Employee) (month : String)
    (monthStart monthEnd : Day) (now : Time) (s : HRMState) : HRMState :=
  let newPayrollEntries :=
    s.employees.filterMap (payrollFor s month monthStart monthEnd actor now)
  if newPayrollEntries.isEmpty then s
  else
    { s with
      payrollEntries := s.payrollEntries ++ newPayrollEntries
      auditLogs := s.auditLogs ++
        [mkAudit now actor "Payroll Processed" "Payroll" month
          ("Processed payroll for " ++ toString newPayrollEntries.length ++
            " employees")] }

/-- Source `handleCreateEmployee`: appends the employee (with a fresh id) together
with its `OvertimeSettings` record (multiplier 1.25 for the 100-hour tier,
1.0 otherwise) and one audit record. -/
def handleCreateEmployee (actor : Employee) (newEmployee : Employee)
    (now : Time) (s : HRMState) : HRMState :=
  let id := "emp_" ++ toString now
  let employeeWithId := { newEmployee with id := id }
  { s with
    employees := s.employees ++ [employeeWithId]
    overtimeSettings := s.overtimeSettings ++
      [{ employeeId := id
         overtimeMultiplier :=
           if newEmployee.monthlyHourTarget = 100 then 1.25 else 1.0 }]
    auditLogs := s.auditLogs ++
      [mkAudit now actor "Employee Created" "Employee" id
        ("Created employee: " ++ newEmployee.name)] }

/-- Source `handleUpdateEmployee`: the `{...emp, ...updates}` object spread is
modelled by an update function; `changedKeys` stands for
`Object.keys(updates).join(', ')`. -/
def handleUpdateEmployee (actor : Employee) (employeeId : String)
    (updates : Employee → Employee) (changedKeys : String) (now : Time)
    (s : HRMState) : HRMState :=
  { s with
    employees := s.employees.map (fun emp =>
      if emp.id == employeeId then updates emp else emp)
    auditLogs := s.auditLogs ++
      [mkAudit now actor "Employee Updated" "Employee" employeeId
        ("Updated fields: " ++ changedKeys)] }

/-- Source `handleDeleteEmployee`: no-op when the employee is not found, otherwise
filters the employee out of every dependent collection and appends one audit
record. -/
def handleDeleteEmployee (actor : Employee) (employeeId : String) (now : Time)
    (s : HRMState) : HRMState :=
  match s.employees.find? (fun e => e.id == employeeId) with
  | none => s
  | some emp =>
    { s with
      employees := s.employees.filter (fun e => e.id != employeeId)
      timeLogs := s.timeLogs.filter (fun t => t.employeeId != employeeId)
      tasks := s.tasks.filter (fun t => t.employeeId != employeeId)
      leaveRequests := s.leaveRequests.filter (fun l => l.employeeId != employeeId)
      payrollEntries := s.payrollEntries.filter (fun p => p.employeeId != employeeId)
      overtimeSettings :=
        s.overtimeSettings.filter (fun o => o.employeeId != employeeId)
      auditLogs := s.auditLogs ++
        [mkAudit now actor "Employee Deleted" "Employee" employeeId
          ("Deleted employee: " ++ emp.name)] }

/-- Source `handleGrantCompLeave`: adds `days` to `compLeavesEarned` of the matching
employee and appends one audit record. -/
def handleGrantCompLeave (actor : Employee) (employeeId : String) (days : Int)
    (now : Time) (s : HRMState) : HRMState :=
  { s with
    employees := s.employees.map (fun emp =>
      if emp.id == employeeId then
        { emp with compLeavesEarned := emp.compLeavesEarned + days }
      else emp)
    auditLogs := s.auditLogs ++
      [mkAudit now actor "Comp Leave Granted" "Employee" employeeId
        ("Granted " ++ toString days ++ " comp leave(s)")] }

/-- Source `handleUpdateOvertimeSettings`: updates the existing record in place, or
appends a fresh one, and appends one audit record. -/
def handleUpdateOvertimeSettings (actor : Employee) (employeeId : String)
    (multiplier : ℚ) (now : Time) (s : HRMState) : HRMState :=
  let existingSettings := s.overtimeSettings.find? (fun o => o.employeeId == employeeId)
  let updatedSettings :=
    if existingSettings.isSome then
      s.overtimeSettings.map (fun o =>
        if o.employeeId == employeeId then { o with overtimeMultiplier := multiplier }
        else o)
    else s.overtimeSettings ++ [{ employeeId := employeeId, overtimeMultiplier := multiplier }]
  { s with
    overtimeSettings := updatedSettings
    auditLogs := s.auditLogs ++
      [mkAudit now actor "Overtime Settings Updated" "OvertimeSettings" employeeId
        ("Overtime multiplier set to " ++ toString multiplier ++ "x")] }

/-- Source `handleUpdatePayroll`: the `{...entry, ...updates}` spread is modelled by
an update function; `changedKeys` stands for `Object.keys(updates).join(', ')`. -/
def handleUpdatePayroll (actor : Employee) (payrollId : String)
    (updates : PayrollEntry → PayrollEntry) (changedKeys : String) (now : Time)
    (s : HRMState) : HRMState :=
  { s with
    payrollEntries := s.payrollEntries.map (fun entry =>
      if entry.id == payrollId then updates entry else entry)
    auditLogs := s.auditLogs ++
      [mkAudit now actor "Payroll Updated" "Payroll" payrollId
        ("Updated: " ++ changedKeys)] }

/-! ## Employee operations (`EmployeeView` handlers)

Handlers that bail out before `onUpdateState` are modelled as
`Except err HRMState`: the `error` result means `onUpdateState` was never
called, i.e. the state is left exactly as it was. -/

/-- Source lookup `todayTimeLog`: the entry found by
`state.timeLogs.find(log => log.employeeId === employee.id && log.date === today)`. -/
def todayLogFor (s : HRMState) (empId : String) (today : Day) : Option TimeLog :=
  s.timeLogs.find? (fun log => log.employeeId == empId && log.date == today)

/-- Source lookup `myTasks`: tasks of this employee dated `today`. -/
def tasksForDay (s : HRMState) (empId : String) (today : Day) : List Task :=
  s.tasks.filter (fun task => task.employeeId == empId && task.date == today)

inductive CheckInError
  | DuplicateCheckIn
deriving DecidableEq

/-- The state update performed by a successful `handleCheckIn`. -/
def checkInApply (actor : Employee) (today : Day) (now : Time) (s : HRMState) :
    HRMState :=
  let newLog : TimeLog :=
    { id := "log_" ++ toString now
      employeeId := actor.id
      date := today
      checkIn := some now
      checkOut := none
      breaks := []
      totalHours := 0
      status := .checkedIn }
  { s with
    timeLogs := s.timeLogs ++ [newLog]
    auditLogs := s.auditLogs ++
      [mkAudit now actor "Check In" "TimeLog" newLog.id "Employee checked in"] }

/-- Source `handleCheckIn`: refused when an entry for today already exists, otherwise
appends a fresh `checked-in` entry and one audit record. -/
def handleCheckIn (actor : Employee) (today : Day) (now : Time) (s : HRMState) :
    Except CheckInError HRMState :=
  if (todayLogFor s actor.id today).isSome then .error .DuplicateCheckIn
  else .ok (checkInApply actor today now s)

inductive CheckOutError
  | NotCheckedIn
  | AlreadyCheckedOut
  | TasksRequired
deriving DecidableEq

/-- The millisecond subtraction in `handleCheckOut`: start from
`checkOut − checkIn` and subtract each break's `(breakOut ?? checkOut) − breakIn`. -/
def computeTotalMs (checkIn checkOutTime : Time) (breaks : List BreakLog) : Int :=
  breaks.foldl (fun totalMs b => totalMs - (b.breakOut.getD checkOutTime - b.breakIn))
    (checkOutTime - checkIn)

/-- The state update performed by a successful `handleCheckOut`: stores
`checkOut`, `totalHours = max(0, totalMs / 3600000)` and status `checked-out`
on today's entry and appends one audit record.
`new Date(todayTimeLog.checkIn!)` coerces a null check-in to epoch 0. -/
def checkOutApply (actor : Employee) (todayLog : TimeLog) (now : Time)
    (s : HRMState) : HRMState :=
  let totalMs := computeTotalMs (todayLog.checkIn.getD 0) now todayLog.breaks
  let totalHours : ℚ := max 0 ((totalMs : ℚ) / (1000 * 60 * 60))
  { s with
    timeLogs := s.timeLogs.map (fun log =>
      if log.id == todayLog.id then
        { log with
          checkOut := some now
          totalHours := totalHours
          status := .checkedOut }
      else log)
    auditLogs := s.auditLogs ++
      [mkAudit now actor "Check Out" "TimeLog" todayLog.id
        ("Employee checked out. Total hours: " ++ toString totalHours)] }

/-- Source `handleCheckOut`: refused when no entry exists for today
(`!todayTimeLog`), when it is already checked out (`todayTimeLog.checkOut`
truthy), or when no task is logged today (`myTasks.length === 0`); otherwise
applies `checkOutApply`. -/
def handleCheckOut (actor : Employee) (today : Day) (now : Time) (s : HRMState) :
    Except CheckOutError HRMState :=
  match todayLogFor s actor.id today with
  | none => .error .NotCheckedIn
  | some todayLog =>
    if todayLog.checkOut.isSome then .error .AlreadyCheckedOut
    else if (tasksForDay s actor.id today).isEmpty then .error .TasksRequired
    else .ok (checkOutApply actor todayLog now s)

inductive BreakError
  | InvalidBreakAttempt
  | AlreadyOnBreak
  | NoActiveBreak
deriving DecidableEq

/-- The state update performed by a successful `handleBreakIn`. -/
def breakInApply (actor : Employee) (todayLog : TimeLog) (now : Time)
    (s : HRMState) : HRMState :=
  { s with
    timeLogs := s.timeLogs.map (fun log =>
      if log.id == todayLog.id then
        { log with breaks := log.breaks ++ [{ breakIn := now, breakOut := none }] }
      else log)
    auditLogs := s.auditLogs ++
      [mkAudit now actor "Break Start" "TimeLog" todayLog.id
        "Employee started break"] }

/-- Source `handleBreakIn`: refused without an open check-in or while a break is
already open; otherwise appends `{breakIn: now, breakOut: null}` to today's
entry and one audit record. -/
def handleBreakIn (actor : Employee) (today : Day) (now : Time) (s : HRMState) :
    Except BreakError HRMState :=
  match todayLogFor s actor.id today with
  | none => .error .InvalidBreakAttempt
  | some todayLog =>
    if todayLog.checkOut.isSome then .error .InvalidBreakAttempt
    else if todayLog.breaks.any (fun b => b.breakOut.isNone) then .error .AlreadyOnBreak
    else .ok (breakInApply actor todayLog now s)

/-- Closing the break found by `breaks.find(b => !b.breakOut)`: the source
maps with reference equality against that break, i.e. the first open one. -/
def closeFirstOpenBreak (now : Time) : List BreakLog → List BreakLog
  | [] => []
  | b :: bs =>
    if b.breakOut.isNone then { b with breakOut := some now } :: bs
    else b :: closeFirstOpenBreak now bs

/-- The state update performed by a successful `handleBreakOut`. -/
def breakOutApply (actor : Employee) (todayLog : TimeLog) (now : Time)
    (s : HRMState) : HRMState :=
  { s with
    timeLogs := s.timeLogs.map (fun log =>
      if log.id == todayLog.id then
        { log with breaks := closeFirstOpenBreak now log.breaks }
      else log)
    auditLogs := s.auditLogs ++
      [mkAudit now actor "Break End" "TimeLog" todayLog.id
        "Employee ended break"] }

/-- Source `handleBreakOut`: silently refused without today's entry, refused with
"No active break" when every break is closed; otherwise sets `breakOut = now`
on the first open break and appends one audit record. -/
def handleBreakOut (actor : Employee) (today : Day) (now : Time) (s : HRMState) :
    Except BreakError HRMState :=
  match todayLogFor s actor.id today with
  | none => .error .InvalidBreakAttempt
  | some todayLog =>
    if todayLog.breaks.all (fun b => b.breakOut.isSome) then .error .NoActiveBreak
    else .ok (breakOutApply actor todayLog now s)

/-- Source `handleAddTask`: unconditionally appends a pending task for today plus
one audit record (input validation lives in `TaskLogger.handleSubmit`). -/
def handleAddTask (actor : Employee) (today : Day) (description : String)
    (hours : ℚ) (now : Time) (s : HRMState) : HRMState :=
  let newTask : Task :=
    { id := "task_" ++ toString now
      employeeId := actor.id
      date := today
      description := description
      hoursSpent := hours
      status := .pending
      managerComment := none
      reviewedBy := none
      reviewedAt := none }
  { s with
    tasks := s.tasks ++ [newTask]
    auditLogs := s.auditLogs ++
      [mkAudit now actor "Task Created" "Task" newTask.id
        ("Task added: " ++ description)] }

/-- Source `TaskLogger.handleSubmit`: forwards to `onAddTask(description.trim(), hours)`
only when the trimmed description is non-empty and `hours > 0`. -/
def taskLoggerSubmit (actor : Employee) (today : Day) (description : String)
    (hours : ℚ) (now : Time) (s : HRMState) : HRMState :=
  if strTrim description ≠ "" ∧ hours > 0 then
    handleAddTask actor today (strTrim description) hours now s
  else s

/-- Source `handleDeleteTask`: no-op when the task is not found, otherwise removes it
and appends one audit record. -/
def handleDeleteTask (actor : Employee) (taskId : String) (now : Time)
    (s : HRMState) : HRMState :=
  match s.tasks.find? (fun t => t.id == taskId) with
  | none => s
  | some task =>
    { s with
      tasks := s.tasks.filter (fun t => t.id != taskId)
      auditLogs := s.auditLogs ++
        [mkAudit now actor "Task Deleted" "Task" taskId
          ("Task deleted: " ++ task.description)] }

/-- Source `handleRequestLeave`: unconditionally appends a pending request with
`requestedAt = now` plus one audit record (validation lives in
`LeaveManagementEmployee.handleSubmit`). -/
def handleRequestLeave (actor : Employee) (startDate endDate reason : String)
    (now : Time) (s : HRMState) : HRMState :=
  let newRequest : LeaveRequest :=
    { id := "leave_" ++ toString now
      employeeId := actor.id
      startDate := startDate
      endDate := endDate
      reason := reason
      status := .pending
      requestedAt := now
      reviewedBy := none
      reviewedAt := none
      reviewComment := none }
  { s with
    leaveRequests := s.leaveRequests ++ [newRequest]
    auditLogs := s.auditLogs ++
      [mkAudit now actor "Leave Request Created" "LeaveRequest" newRequest.id
        ("Leave requested: " ++ startDate ++ " to " ++ endDate)] }

/-- Source `LeaveManagementEmployee.handleSubmit`: forwards to
`onRequestLeave(startDate, endDate, reason.trim())` only when both dates are
non-empty strings and the trimmed reason is non-empty.  There is no
comparison between the two dates. -/
def leaveFormSubmit (actor : Employee) (startDate endDate reason : String)
    (now : Time) (s : HRMState) : HRMState :=
  if startDate ≠ "" ∧ endDate ≠ "" ∧ strTrim reason ≠ "" then
    handleRequestLeave actor startDate endDate (strTrim reason) now s
  else s

/-! ## Manager operations (`ManagerView` handlers) -/

/-- Source `handleApproveTask(taskId, withComment?)`: marks the matching task
approved with reviewer metadata and appends one audit record.  The handler
performs no existence or status check. -/
def handleApproveTask (actor : Employee) (taskId : String)
    (withComment : Option String) (now : Time) (s : HRMState) : HRMState :=
  { s with
    tasks := s.tasks.map (fun task =>
      if task.id == taskId then
        { task with
          status := .approved
          managerComment := withComment
          reviewedBy := some actor.id
          reviewedAt := some now }
      else task)
    auditLogs := s.auditLogs ++
      [mkAudit now actor "Task Approved" "Task" taskId
        (match withComment with
         | some c => "Approved with comment: " ++ c
         | none => "Task approved")] }

/-- Source `handleCommentTask(taskId, commentText)`: no-op when the trimmed comment
is empty; otherwise marks the task commented with reviewer metadata and
appends one audit record. -/
def handleCommentTask (actor : Employee) (taskId : String) (commentText : String)
    (now : Time) (s : HRMState) : HRMState :=
  if strTrim commentText = "" then s
  else
    { s with
      tasks := s.tasks.map (fun task =>
        if task.id == taskId then
          { task with
            status := .commented
            managerComment := some commentText
            reviewedBy := some actor.id
            reviewedAt := some now }
        else task)
      auditLogs := s.auditLogs ++
        [mkAudit now actor "Task Reviewed" "Task" taskId
          ("Comment added: " ++ commentText)] }

/-- Source `handleApproveLeave(leaveId, approved, comment?)`: no-op when the request
or its employee is missing; otherwise sets the decision and reviewer metadata
on the request, on approval additionally increments the employee's
`compLeavesUsed` by 1, and appends one audit record.  The handler performs no
check that the request is still pending. -/
def handleApproveLeave (actor : Employee) (leaveId : String) (approved : Bool)
    (comment : Option String) (now : Time) (s : HRMState) : HRMState :=
  match s.leaveRequests.find? (fun l => l.id == leaveId) with
  | none => s
  | some leave =>
    match s.employees.find? (fun e => e.id == leave.employeeId) with
    | none => s
    | some _ =>
      let updatedLeaveRequests := s.leaveRequests.map (fun req =>
        if req.id == leaveId then
          { req with
            status := if approved then .approved else .rejected
            reviewedBy := some actor.id
            reviewedAt := some now
            reviewComment := comment }
        else req)
      let updatedEmployees :=
        if approved then
          s.employees.map (fun e =>
            if e.id == leave.employeeId then
              { e with compLeavesUsed := e.compLeavesUsed + 1 }
            else e)
        else s.employees
      { s with
        leaveRequests := updatedLeaveRequests
        employees := updatedEmployees
        auditLogs := s.auditLogs ++
          [mkAudit now actor (if approved then "Leave Approved" else "Leave Rejected")
            "LeaveRequest" leaveId
            (if approved then "Leave approved" else "Leave rejected")] }

inductive DecideError
  | LeaveNotFound
  | NotPending
deriving DecidableEq

/-- The review action as reachable through the UI: `LeaveReviewView` renders
the Review button (which is the only way `handleApproveLeave` is invoked)
only under `request.status === 'pending'`.  A request that is already decided
therefore cannot be decided again; this composite models that gate in front
of the raw handler. -/
def decideLeave (actor : Employee) (leaveId : String) (approved : Bool)
    (comment : Option String) (now : Time) (s : HRMState) :
    Except DecideError HRMState :=
  match s.leaveRequests.find? (fun l => l.id == leaveId) with
  | none => .error .LeaveNotFound
  | some leave =>
    if leave.status ≠ .pending then .error .NotPending
    else .ok (handleApproveLeave actor leaveId approved comment now s)

/-! ## Concrete states used to exercise the operations -/

def emptyState : HRMState :=
  { employees := []
    timeLogs := []
    tasks := []
    leaveRequests := []
    payrollEntries := []
    overtimeSettings := []
    auditLogs := []
    currentUser := none }

def adminW : Employee :=
  { id := "emp_admin"
    name := "Admin"
    email := "admin@harphrm.com"
    password := "admin123"
    managerId := none
    monthlyHourTarget := 40
    hourlyRate := 0
    role := .admin
    compLeavesEarned := 0
    compLeavesUsed := 0 }

def mgrW : Employee :=
  { id := "emp_mgr"
    name := "Manager"
    email := "manager@harphrm.com"
    password := "manager123"
    managerId := none
    monthlyHourTarget := 40
    hourlyRate := 3000
    role := .manager
    compLeavesEarned := 0
    compLeavesUsed := 0 }

def aliW : Employee :=
  { id := "emp_ali"
    name := "Ali Hassan"
    email := "ali.hassan@harphrm.com"
    password := "employee123"
    managerId := some "emp_mgr"
    monthlyHourTarget := 80
    hourlyRate := 5000
    role := .employee
    compLeavesEarned := 1
    compLeavesUsed := 0 }

def aliUsed1 : Employee := { aliW with compLeavesUsed := 1 }

/-- A day in progress: checked in at 09:00, one closed break (11:00–11:30)
and one break still open since 13:53:20 (times in ms from day start). -/
def logT : TimeLog :=
  { id := "log_1"
    employeeId := "emp_ali"
    date := 100
    checkIn := some 32400000
    checkOut := none
    breaks := [{ breakIn := 39600000, breakOut := some 41400000 },
               { breakIn := 50000000, breakOut := none }]
    totalHours := 0
    status := .checkedIn }

def taskT : Task :=
  { id := "task_1"
    employeeId := "emp_ali"
    date := 100
    description := "Code review"
    hoursSpent := 2
    status := .pending
    managerComment := none
    reviewedBy := none
    reviewedAt := none }

def sTime : HRMState := { emptyState with employees := [aliW], timeLogs := [logT], tasks := [taskT] }

def sTimeNoTasks : HRMState := { emptyState with employees := [aliW], timeLogs := [logT] }

def leavePending : LeaveRequest :=
  { id := "leave_1"
    employeeId := "emp_ali"
    startDate := "2025-09-10"
    endDate := "2025-09-12"
    reason := "family event"
    status := .pending
    requestedAt := 10
    reviewedBy := none
    reviewedAt := none
    reviewComment := none }

def leaveApproved : LeaveRequest :=
  { leavePending with status := .approved, reviewedBy := some "emp_mgr", reviewedAt := some 20 }

def sLeavePending : HRMState :=
  { emptyState with employees := [aliW], leaveRequests := [leavePending] }

/-- The state right after `leavePending` was approved once: request approved,
`compLeavesUsed` already incremented to 1. -/
def sLeaveApproved : HRMState :=
  { emptyState with employees := [aliUsed1], leaveRequests := [leaveApproved] }

def tlogA1 : TimeLog :=
  { id := "log_a1"
    employeeId := "emp_ali"
    date := 5
    checkIn := some 0
    checkOut := some 1
    breaks := []
    totalHours := 50
    status := .checkedOut }

def tlogA2 : TimeLog :=
  { tlogA1 with id := "log_a2", date := 10, totalHours := 40 }

/-- September scenario: 90 worked hours against a target of 80, multiplier
1.25, one unused comp leave. -/
def sPayA : HRMState :=
  { emptyState with
    employees := [aliW]
    timeLogs := [tlogA1, tlogA2]
    overtimeSettings := [{ employeeId := "emp_ali", overtimeMultiplier := 1.25 }] }

/-- Same inputs with the comp leave already used (available = 0). -/
def sPayB : HRMState := { sPayA with employees := [aliUsed1] }

/-- The entry `handleProcessPayroll adminW "2025-09" 0 30 999 sPayA` emits:
overtime suppressed by the unused comp leave. -/
def entryA : PayrollEntry :=
  { id := "payroll_999_emp_ali"
    employeeId := "emp_ali"
    month := "2025-09"
    regularHours := 80
    overtimeHours := 0
    regularPay := 400000
    overtimePay := 0
    totalPay := 400000
    status := .pending
    processedBy := some "emp_admin"
    processedAt := some 999 }

/-- The entry emitted for `sPayB`: comp leaves exhausted, 10 overtime hours
paid at 5000 × 1.25. -/
def entryB : PayrollEntry :=
  { entryA with overtimeHours := 10, overtimePay := 62500, totalPay := 462500 }

/-- State `sPayA` with the 2025-09 payroll already generated for its only
employee. -/
def sHasEntry : HRMState := { sPayA with payrollEntries := [entryA] }

/-- The audit contract: the transition from `old` to `new` appended exactly
one audit record, referencing the acting user's id and name and the affected
entity's id. -/
def appendsOneAudit (old new : HRMState) (actor : Employee)
    (entityId : String) : Prop :=
  ∃ e, new.auditLogs = old.auditLogs ++ [e] ∧
    e.userId = actor.id ∧ e.userName = actor.name ∧ e.entityId = entityId

/-! ## Helper lemmas -/

theorem foldl_sub_break (co : Time) (bs : List BreakLog) (a : Int) :
    bs.foldl (fun totalMs b => totalMs - (b.breakOut.getD co - b.breakIn)) a
      = a - (bs.map (fun b => b.breakOut.getD co - b.breakIn)).sum := by
  induction bs generalizing a with
  | nil => simp
  | cons b bs ih =>
    rw [List.foldl_cons, ih, List.map_cons, List.sum_cons]
    ring

theorem computeTotalMs_eq (ci co : Time) (bs : List BreakLog) :
    computeTotalMs ci co bs
      = (co - ci) - (bs.map (fun b => b.breakOut.getD co - b.breakIn)).sum :=
  foldl_sub_break co bs _

theorem computeTotalMs_perm (ci co : Time) {bs₁ bs₂ : List BreakLog}
    (h : bs₁.Perm bs₂) : computeTotalMs ci co bs₁ = computeTotalMs ci co bs₂ := by
  rw [computeTotalMs_eq, computeTotalMs_eq, (h.map _).sum_eq]

theorem todayLogFor_mem {s : HRMState} {empId : String} {today : Day}
    {log : TimeLog} (h : todayLogFor s empId today = some log) :
    log ∈ s.timeLogs :=
  List.mem_of_find?_eq_some h

theorem handleCheckOut_ok {actor : Employee} {today : Day} {now : Time}
    {s : HRMState} {log : TimeLog}
    (hfind : todayLogFor s actor.id today = some log)
    (hopen : log.checkOut = none)
    (htasks : tasksForDay s actor.id today ≠ []) :
    handleCheckOut actor today now s = .ok (checkOutApply actor log now s) := by
  have hEmp : (tasksForDay s actor.id today).isEmpty = false := by
    cases hE : (tasksForDay s actor.id today).isEmpty
    · rfl
    · exact absurd (List.isEmpty_iff.mp hE) htasks
  simp [handleCheckOut, hfind, hopen, hEmp]

/-! ## Claims -/

/-- Claim C3: on successful check-out, the stored entry's `totalHours` equals
`max(0, (checkOut − checkIn) − Σ(breakOut_i − breakIn_i))` in fractional
hours, where a break still open at check-out uses the check-out time as its
end; the value is clamped at 0, is invariant to reordering of the breaks
(in particular of non-overlapping ones), and the entry's status becomes
`checked-out`. -/
theorem checkOut_stores_break_adjusted_hours
    (actor : Employee) (today : Day) (now : Time) (s : HRMState)
    (log : TimeLog) (tIn : Time)
    (hfind : todayLogFor s actor.id today = some log)
    (hin : log.checkIn = some tIn)
    (hopen : log.checkOut = none)
    (htasks : tasksForDay s actor.id today ≠ []) :
    ∃ s' hrs, handleCheckOut actor today now s = .ok s' ∧
      { log with checkOut := some now, totalHours := hrs, status := .checkedOut }
        ∈ s'.timeLogs ∧
      hrs = max 0 ((((now - tIn)
          - (log.breaks.map (fun b => b.breakOut.getD now - b.breakIn)).sum : Int) : ℚ)
        / (1000 * 60 * 60)) ∧
      ∀ bs' : List BreakLog, bs'.Perm log.breaks →
        max 0 (((computeTotalMs tIn now bs' : Int) : ℚ) / (1000 * 60 * 60)) = hrs := by
  refine ⟨checkOutApply actor log now s,
    max 0 (((computeTotalMs (log.checkIn.getD 0) now log.breaks : Int) : ℚ)
      / (1000 * 60 * 60)),
    handleCheckOut_ok hfind hopen htasks, ?_, ?_, ?_⟩
  · refine List.mem_map.mpr ⟨log, todayLogFor_mem hfind, ?_⟩
    simp [checkOutApply]
  · rw [hin, Option.getD_some, computeTotalMs_eq]
  · intro bs' hp
    rw [hin, Option.getD_some, computeTotalMs_perm tIn now hp]

/-- Claim C4: check-out fails (no state transition happens) when no open
check-in exists for the day, when the entry is already checked out, or — the
cross-component precondition — when the Task Log holds zero entries for that
employee and day; after adding one task for the day, the same check-out
attempt succeeds. -/
theorem checkOut_error_cases (actor : Employee) (today : Day)
    (now now₁ : Time) (s : HRMState) (d : String) (h : ℚ) :
    (todayLogFor s actor.id today = none →
      handleCheckOut actor today now s = .error .NotCheckedIn) ∧
    (∀ log, todayLogFor s actor.id today = some log → log.checkOut.isSome →
      handleCheckOut actor today now s = .error .AlreadyCheckedOut) ∧
    (∀ log, todayLogFor s actor.id today = some log → log.checkOut = none →
      tasksForDay s actor.id today = [] →
      handleCheckOut actor today now s = .error .TasksRequired) ∧
    (∀ log, todayLogFor s actor.id today = some log → log.checkOut = none →
      (handleCheckOut actor today now
        (handleAddTask actor today d h now₁ s)).isOk = true) := by
  refine ⟨?_, ?_, ?_, ?_⟩
  · intro hnone
    simp [handleCheckOut, hnone]
  · intro log hfind hout
    simp [handleCheckOut, hfind, hout]
  · intro log hfind hopen hno
    simp [handleCheckOut, hfind, hopen, hno]
  · intro log hfind hopen
    have hfind' : todayLogFor (handleAddTask actor today d h now₁ s) actor.id today
        = some log := by
      simpa [todayLogFor, handleAddTask] using hfind
    have htasks : tasksForDay (handleAddTask actor today d h now₁ s) actor.id today
        ≠ [] := by
      simp [tasksForDay, handleAddTask, List.filter_append]
    rw [handleCheckOut_ok hfind' hopen htasks]
    rfl

/-- Claim C10: a successful check-out rewrites only the `checkOut`,
`totalHours` and `status` fields of the matching time-log entry; its
`breaks` array (any still-open break included, which keeps `breakOut = null`
in storage) together with `checkIn`, `employeeId` and `date` are kept, and
every time-log entry with a different id — in particular, under unique ids,
every entry of another day or another employee — is unchanged. -/
theorem checkOut_frame (actor : Employee) (today : Day) (now : Time)
    (s : HRMState) (log : TimeLog)
    (hfind : todayLogFor s actor.id today = some log)
    (hopen : log.checkOut = none)
    (htasks : tasksForDay s actor.id today ≠ []) :
    ∃ s' hrs, handleCheckOut actor today now s = .ok s' ∧
      s'.timeLogs = s.timeLogs.map (fun l =>
        if l.id == log.id then
          { l with checkOut := some now, totalHours := hrs, status := .checkedOut }
        else l) ∧
      (∀ l ∈ s.timeLogs, l.id ≠ log.id → l ∈ s'.timeLogs) ∧
      (∃ u ∈ s'.timeLogs, u.id = log.id ∧ u.breaks = log.breaks ∧
        u.checkIn = log.checkIn ∧ u.employeeId = log.employeeId ∧
        u.date = log.date ∧ u.checkOut = some now ∧ u.status = .checkedOut) ∧
      (∀ b ∈ log.breaks, b.breakOut = none →
        ∃ u ∈ s'.timeLogs, u.id = log.id ∧ b ∈ u.breaks ∧ b.breakOut = none) ∧
      ((s.timeLogs.map TimeLog.id).Nodup →
        ∀ l ∈ s.timeLogs, l.employeeId ≠ log.employeeId ∨ l.date ≠ log.date →
          l ∈ s'.timeLogs) := by
  have hmem : log ∈ s.timeLogs := todayLogFor_mem hfind
  have hup :
      ({ log with
          checkOut := some now
          totalHours := max 0
            (((computeTotalMs (log.checkIn.getD 0) now log.breaks : Int) : ℚ)
              / (1000 * 60 * 60))
          status := .checkedOut } : TimeLog)
        ∈ (checkOutApply actor log now s).timeLogs :=
    List.mem_map.mpr ⟨log, hmem, by simp [checkOutApply]⟩
  refine ⟨checkOutApply actor log now s,
    max 0 (((computeTotalMs (log.checkIn.getD 0) now log.breaks : Int) : ℚ)
      / (1000 * 60 * 60)),
    handleCheckOut_ok hfind hopen htasks, rfl, ?_, ?_, ?_, ?_⟩
  · intro l hl hne
    refine List.mem_map.mpr ⟨l, hl, ?_⟩
    simp [checkOutApply, hne]
  · exact ⟨_, hup, rfl, rfl, rfl, rfl, rfl, rfl, rfl⟩
  · intro b hb hbo
    exact ⟨_, hup, rfl, hb, hbo⟩
  · intro hnodup l hl hne
    have hne' : l.id ≠ log.id := by
      intro hid
      have : l = log := List.inj_on_of_nodup_map hnodup hl hmem hid
      rcases hne with hne | hne <;> exact hne (by rw [this])
    refine List.mem_map.mpr ⟨l, hl, ?_⟩
    simp [checkOutApply, hne']

/-- Witness for C3: concrete check-out at 17:00 over `sTime`. -/
theorem checkOut_stores_break_adjusted_hours_witness :
    ∃ s' hrs, handleCheckOut aliW 100 61200000 sTime = .ok s' ∧
      { logT with checkOut := some 61200000, totalHours := hrs, status := .checkedOut }
        ∈ s'.timeLogs ∧
      hrs = max 0 ((((61200000 - 32400000)
          - (logT.breaks.map (fun b => b.breakOut.getD 61200000 - b.breakIn)).sum : Int) : ℚ)
        / (1000 * 60 * 60)) ∧
      ∀ bs' : List BreakLog, bs'.Perm logT.breaks →
        max 0 (((computeTotalMs 32400000 61200000 bs' : Int) : ℚ) / (1000 * 60 * 60)) = hrs :=
  checkOut_stores_break_adjusted_hours aliW 100 61200000 sTime logT 32400000
    (by decide) rfl rfl (by decide)

/-- Witness for C4: without tasks the check-out is refused, after one
`handleAddTask` the same attempt succeeds. -/
theorem checkOut_error_cases_witness :
    handleCheckOut aliW 100 61200000 sTimeNoTasks = .error .TasksRequired ∧
    (handleCheckOut aliW 100 61200000
      (handleAddTask aliW 100 "Code review" 2 540 sTimeNoTasks)).isOk = true := by
  have hthm := checkOut_error_cases aliW 100 61200000 540 sTimeNoTasks "Code review" 2
  exact ⟨hthm.2.2.1 logT (by decide) rfl (by decide), hthm.2.2.2 logT (by decide) rfl⟩

/-- Witness for C10: after the concrete check-out the stored entry still
holds the break that was open at check-out time, with `breakOut = null`. -/
theorem checkOut_frame_witness :
    ∃ s', handleCheckOut aliW 100 61200000 sTime = .ok s' ∧
      ∃ u ∈ s'.timeLogs, u.id = logT.id ∧
        ({ breakIn := 50000000, breakOut := none } : BreakLog) ∈ u.breaks := by
  obtain ⟨s', hrs, hok, hmap, hoth, hupd, hbrk, hnd⟩ :=
    checkOut_frame aliW 100 61200000 sTime logT (by decide) rfl (by decide)
  obtain ⟨u, hu, huid, hub, hubo⟩ :=
    hbrk { breakIn := 50000000, breakOut := none } (by decide) rfl
  exact ⟨s', hok, u, hu, huid, hub⟩

/-- Claim C5: approving a pending leave request increments the requesting
employee's `compLeavesUsed` by exactly 1 — independently of the requested
date range — and leaves `compLeavesEarned` untouched; rejecting changes no
employee record; either way the request's status becomes approved/rejected
with reviewer identity and timestamp recorded. -/
theorem approveLeave_counters (actor : Employee) (leaveId : String)
    (approved : Bool) (comment : Option String) (now : Time) (s : HRMState)
    (leave : LeaveRequest) (emp : Employee)
    (hleave : s.leaveRequests.find? (fun l => l.id == leaveId) = some leave)
    (_hpending : leave.status = .pending)
    (hemp : s.employees.find? (fun e => e.id == leave.employeeId) = some emp) :
    (approved = true →
      (handleApproveLeave actor leaveId approved comment now s).employees
        = s.employees.map (fun e =>
            if e.id == leave.employeeId then
              { e with compLeavesUsed := e.compLeavesUsed + 1 }
            else e)) ∧
    (approved = false →
      (handleApproveLeave actor leaveId approved comment now s).employees
        = s.employees) ∧
    (∀ e ∈ s.employees,
      ∃ e' ∈ (handleApproveLeave actor leaveId approved comment now s).employees,
        e'.compLeavesEarned = e.compLeavesEarned ∧
        e'.compLeavesUsed = e.compLeavesUsed
          + (if approved = true ∧ e.id = leave.employeeId then 1 else 0)) ∧
    ({ leave with
        status := if approved then .approved else .rejected
        reviewedBy := some actor.id
        reviewedAt := some now
        reviewComment := comment }
      ∈ (handleApproveLeave actor leaveId approved comment now s).leaveRequests) := by
  have hleavemem : leave ∈ s.leaveRequests := List.mem_of_find?_eq_some hleave
  have hleaveid := List.find?_some hleave
  refine ⟨?_, ?_, ?_, ?_⟩
  · intro ha
    simp [handleApproveLeave, hleave, hemp, ha]
  · intro ha
    simp [handleApproveLeave, hleave, hemp, ha]
  · intro e he
    cases approved with
    | false =>
      refine ⟨e, ?_, rfl, by simp⟩
      simp [handleApproveLeave, hleave, hemp, he]
    | true =>
      by_cases hid : e.id = leave.employeeId
      · refine ⟨{ e with compLeavesUsed := e.compLeavesUsed + 1 }, ?_, rfl, by simp [hid]⟩
        simp only [handleApproveLeave, hleave, hemp]
        exact List.mem_map.mpr ⟨e, he, by simp [hid]⟩
      · refine ⟨e, ?_, rfl, by simp [hid]⟩
        simp only [handleApproveLeave, hleave, hemp]
        exact List.mem_map.mpr ⟨e, he, by simp [hid]⟩
  · simp only [handleApproveLeave, hleave, hemp]
    exact List.mem_map.mpr ⟨leave, hleavemem, by simp [hleaveid]⟩

/-- Witness for C5: approving the concrete pending request bumps the only
employee's used counter from 0 to 1. -/
theorem approveLeave_counters_witness :
    (handleApproveLeave mgrW "leave_1" true none 50 sLeavePending).employees
      = sLeavePending.employees.map (fun e =>
          if e.id == leavePending.employeeId then
            { e with compLeavesUsed := e.compLeavesUsed + 1 }
          else e) :=
  (approveLeave_counters mgrW "leave_1" true none 50 sLeavePending leavePending aliW
    (by decide) rfl (by decide)).1 rfl

/-- Counterexample for C6: the handler itself never checks that the request
is still pending.  Re-deciding the already-approved request `leave_1`
increments `compLeavesUsed` a second time (1 → 2), so a second decide call
is not the no-op the claim requires. -/
theorem decide_twice_changes_counter :
    sLeaveApproved.employees.map Employee.compLeavesUsed = [1] ∧
    sLeaveApproved.leaveRequests.map LeaveRequest.status = [.approved] ∧
    (handleApproveLeave mgrW "leave_1" true none 99 sLeaveApproved).employees.map
        Employee.compLeavesUsed = [2] :=
  ⟨by decide, by decide, by decide⟩

/-- Claim C6 (amended): the pending-only gate lives in the review UI, not in
the handler — `LeaveReviewView` offers the review action only while
`request.status === 'pending'`.  Through that gate, deciding an
already-decided request fails with `NotPending` and triggers no state
transition. -/
theorem decideLeave_terminal (actor : Employee) (leaveId : String)
    (approved : Bool) (comment : Option String) (now : Time) (s : HRMState)
    (leave : LeaveRequest)
    (hfind : s.leaveRequests.find? (fun l => l.id == leaveId) = some leave)
    (hdecided : leave.status ≠ .pending) :
    decideLeave actor leaveId approved comment now s = .error .NotPending := by
  simp [decideLeave, hfind, hdecided]

/-- Witness for C6 (amended): the gated decide on the already-approved
request fails with `NotPending`. -/
theorem decideLeave_terminal_witness :
    decideLeave mgrW "leave_1" true none 99 sLeaveApproved = .error .NotPending :=
  decideLeave_terminal mgrW "leave_1" true none 99 sLeaveApproved leaveApproved
    (by decide) (by decide)

/-- Counterexample for C7: no `InvalidRange` check exists.  Submitting a
request whose end date precedes its start date (as strings, hence as dates)
still creates a pending request. -/
theorem invertedRange_creates_request :
    ("2025-01-05".data < "2025-01-10".data) ∧
    (leaveFormSubmit aliW "2025-01-10" "2025-01-05" "family event" 7
        sLeavePending).leaveRequests.length
      = sLeavePending.leaveRequests.length + 1 ∧
    (∃ r ∈ (leaveFormSubmit aliW "2025-01-10" "2025-01-05" "family event" 7
        sLeavePending).leaveRequests,
      r.startDate = "2025-01-10" ∧ r.endDate = "2025-01-05" ∧ r.status = .pending) :=
  ⟨by decide, by decide, by decide⟩

/-- Claim C7 (amended): the submit path creates no request when the start
date, the end date, or the trimmed reason is blank; whenever all three are
non-blank it creates exactly one pending request with the request timestamp
recorded — including when the end date precedes the start date, since the
code never compares the two dates. -/
theorem leaveSubmit_validation (actor : Employee)
    (startDate endDate reason : String) (now : Time) (s : HRMState) :
    (strTrim reason = "" → leaveFormSubmit actor startDate endDate reason now s = s) ∧
    (startDate = "" → leaveFormSubmit actor startDate endDate reason now s = s) ∧
    (endDate = "" → leaveFormSubmit actor startDate endDate reason now s = s) ∧
    (startDate ≠ "" → endDate ≠ "" → strTrim reason ≠ "" →
      (leaveFormSubmit actor startDate endDate reason now s).leaveRequests
        = s.leaveRequests ++
          [{ id := "leave_" ++ toString now
             employeeId := actor.id
             startDate := startDate
             endDate := endDate
             reason := strTrim reason
             status := .pending
             requestedAt := now
             reviewedBy := none
             reviewedAt := none
             reviewComment := none }]) := by
  refine ⟨?_, ?_, ?_, ?_⟩
  · intro h
    simp [leaveFormSubmit, h]
  · intro h
    simp [leaveFormSubmit, h]
  · intro h
    simp [leaveFormSubmit, h]
  · intro h₁ h₂ h₃
    simp [leaveFormSubmit, h₁, h₂, h₃, handleRequestLeave]

/-- Witness for C7 (amended): the concrete inverted-range submission appends
exactly the expected pending request. -/
theorem leaveSubmit_validation_witness :
    (leaveFormSubmit aliW "2025-01-10" "2025-01-05" "family event" 7
        sLeavePending).leaveRequests
      = sLeavePending.leaveRequests ++
        [{ id := "leave_" ++ toString (7 : Time)
           employeeId := aliW.id
           startDate := "2025-01-10"
           endDate := "2025-01-05"
           reason := strTrim "family event"
           status := .pending
           requestedAt := 7
           reviewedBy := none
           reviewedAt := none
           reviewComment := none }] :=
  (leaveSubmit_validation aliW "2025-01-10" "2025-01-05" "family event" 7
    sLeavePending).2.2.2 (by decide) (by decide) (by decide)

/-- Both directions of membership in a `filter` that drops one employee's
records: nothing referencing `eid` survives, everything else does. -/
theorem mem_filter_ne {α : Type} (l : List α) (f : α → String) (eid : String) :
    (∀ x ∈ l.filter (fun x => f x != eid), f x ≠ eid) ∧
    (∀ x ∈ l, f x ≠ eid → x ∈ l.filter (fun x => f x != eid)) := by
  constructor
  · intro x hx
    exact bne_iff_ne.mp (List.mem_filter.mp hx).2
  · intro x hx hne
    exact List.mem_filter.mpr ⟨hx, bne_iff_ne.mpr hne⟩

/-- Claim C8: after `handleDeleteEmployee` removes an existing employee, no
time log, task, leave request, payroll entry or overtime-settings record
referencing that employee remains, and every record of any other employee is
still present. -/
theorem deleteEmployee_cascades (actor : Employee) (eid : String) (now : Time)
    (s : HRMState)
    (hfound : (s.employees.find? (fun e => e.id == eid)).isSome) :
    ((∀ e ∈ (handleDeleteEmployee actor eid now s).employees, e.id ≠ eid) ∧
      (∀ e ∈ s.employees, e.id ≠ eid → e ∈ (handleDeleteEmployee actor eid now s).employees)) ∧
    ((∀ t ∈ (handleDeleteEmployee actor eid now s).timeLogs, t.employeeId ≠ eid) ∧
      (∀ t ∈ s.timeLogs, t.employeeId ≠ eid → t ∈ (handleDeleteEmployee actor eid now s).timeLogs)) ∧
    ((∀ t ∈ (handleDeleteEmployee actor eid now s).tasks, t.employeeId ≠ eid) ∧
      (∀ t ∈ s.tasks, t.employeeId ≠ eid → t ∈ (handleDeleteEmployee actor eid now s).tasks)) ∧
    ((∀ l ∈ (handleDeleteEmployee actor eid now s).leaveRequests, l.employeeId ≠ eid) ∧
      (∀ l ∈ s.leaveRequests, l.employeeId ≠ eid → l ∈ (handleDeleteEmployee actor eid now s).leaveRequests)) ∧
    ((∀ p ∈ (handleDeleteEmployee actor eid now s).payrollEntries, p.employeeId ≠ eid) ∧
      (∀ p ∈ s.payrollEntries, p.employeeId ≠ eid → p ∈ (handleDeleteEmployee actor eid now s).payrollEntries)) ∧
    ((∀ o ∈ (handleDeleteEmployee actor eid now s).overtimeSettings, o.employeeId ≠ eid) ∧
      (∀ o ∈ s.overtimeSettings, o.employeeId ≠ eid → o ∈ (handleDeleteEmployee actor eid now s).overtimeSettings)) := by
  obtain ⟨emp, hemp⟩ := Option.isSome_iff_exists.mp hfound
  simp only [handleDeleteEmployee, hemp]
  exact ⟨⟨(mem_filter_ne s.employees Employee.id eid).1,
          (mem_filter_ne s.employees Employee.id eid).2⟩,
        ⟨(mem_filter_ne s.timeLogs TimeLog.employeeId eid).1,
          (mem_filter_ne s.timeLogs TimeLog.employeeId eid).2⟩,
        ⟨(mem_filter_ne s.tasks Task.employeeId eid).1,
          (mem_filter_ne s.tasks Task.employeeId eid).2⟩,
        ⟨(mem_filter_ne s.leaveRequests LeaveRequest.employeeId eid).1,
          (mem_filter_ne s.leaveRequests LeaveRequest.employeeId eid).2⟩,
        ⟨(mem_filter_ne s.payrollEntries PayrollEntry.employeeId eid).1,
          (mem_filter_ne s.payrollEntries PayrollEntry.employeeId eid).2⟩,
        ⟨(mem_filter_ne s.overtimeSettings OvertimeSettings.employeeId eid).1,
          (mem_filter_ne s.overtimeSettings OvertimeSettings.employeeId eid).2⟩⟩

/-- Witness for C8: deleting `emp_ali` from the concrete state. -/
theorem deleteEmployee_cascades_witness :
    (∀ t ∈ (handleDeleteEmployee adminW "emp_ali" 50 sTime).timeLogs,
      t.employeeId ≠ "emp_ali") ∧
    (∀ t ∈ (handleDeleteEmployee adminW "emp_ali" 50 sTime).tasks,
      t.employeeId ≠ "emp_ali") := by
  have h := deleteEmployee_cascades adminW "emp_ali" 50 sTime (by decide)
  exact ⟨h.2.1.1, h.2.2.1.1⟩

theorem foldl_add_totalHours (l : List TimeLog) (a : ℚ) :
    l.foldl (fun sum log => sum + log.totalHours) a
      = a + (l.map TimeLog.totalHours).sum := by
  induction l generalizing a with
  | nil => simp
  | cons x xs ih =>
    rw [List.foldl_cons, ih, List.map_cons, List.sum_cons]
    ring

/-- The Boolean month filter of the source agrees with its propositional
reading. -/
theorem monthLogsFor_eq_spec (s : HRMState) (emp : Employee)
    (monthStart monthEnd : Day) :
    monthLogsFor s emp monthStart monthEnd
      = s.timeLogs.filter (fun l =>
          decide (l.employeeId = emp.id ∧ monthStart ≤ l.date ∧
            l.date ≤ monthEnd ∧ l.checkOut ≠ none)) := by
  unfold monthLogsFor
  apply List.filter_congr
  intro x _
  rw [Bool.eq_iff_iff]
  simp [Option.isSome_iff_ne_none, and_assoc]

/-- Claim C1: every payroll entry newly emitted by `handleProcessPayroll`
belongs to an employee of the state and satisfies the payroll formulas:
`totalHours` sums the employee's completed (non-null `checkOut`) time-log
entries dated inside the month; `regularHours = min(totalHours, target)`;
`overtimeHours = totalHours − target` when `totalHours > target` and
`compLeavesEarned − compLeavesUsed ≤ 0`, and `0` otherwise;
`regularPay = regularHours × hourlyRate`;
`overtimePay = overtimeHours × hourlyRate × multiplier` with multiplier 1.0
when no `OvertimeSettings` record exists; `totalPay = regularPay +
overtimePay`. -/
theorem payroll_entry_formulas (actor : Employee) (month : String)
    (monthStart monthEnd : Day) (now : Time) (s : HRMState)
    (entry : PayrollEntry)
    (hmem : entry ∈ (handleProcessPayroll actor month monthStart monthEnd now
      s).payrollEntries)
    (hnew : entry ∉ s.payrollEntries) :
    ∃ emp ∈ s.employees,
      entry.employeeId = emp.id ∧ entry.month = month ∧
      ∃ tot : ℚ,
        tot = ((s.timeLogs.filter (fun l =>
            decide (l.employeeId = emp.id ∧ monthStart ≤ l.date ∧
              l.date ≤ monthEnd ∧ l.checkOut ≠ none))).map TimeLog.totalHours).sum ∧
        entry.regularHours = min tot emp.monthlyHourTarget ∧
        entry.overtimeHours =
          (if tot > emp.monthlyHourTarget ∧
              emp.compLeavesEarned - emp.compLeavesUsed ≤ 0 then
            tot - emp.monthlyHourTarget
          else 0) ∧
        entry.regularPay = entry.regularHours * emp.hourlyRate ∧
        entry.totalPay = entry.regularPay + entry.overtimePay ∧
        (s.overtimeSettings.find? (fun o => o.employeeId == emp.id) = none →
          entry.overtimePay = entry.overtimeHours * emp.hourlyRate) ∧
        (∀ o, s.overtimeSettings.find? (fun o => o.employeeId == emp.id) = some o →
          o.overtimeMultiplier ≠ 0 →
          entry.overtimePay = entry.overtimeHours * emp.hourlyRate *
            o.overtimeMultiplier) ∧
        entry.status = .pending := by
  unfold handleProcessPayroll at hmem
  by_cases hN : (s.employees.filterMap
      (payrollFor s month monthStart monthEnd actor now)).isEmpty
  · rw [if_pos hN] at hmem
    exact absurd hmem hnew
  · rw [if_neg hN] at hmem
    rcases List.mem_append.mp hmem with hold | hfm
    · exact absurd hold hnew
    obtain ⟨emp, hempmem, hpf⟩ := List.mem_filterMap.mp hfm
    refine ⟨emp, hempmem, ?_⟩
    unfold payrollFor at hpf
    by_cases hex : (s.payrollEntries.find?
        (fun p => p.employeeId == emp.id && p.month == month)).isSome
    · rw [if_pos hex] at hpf
      exact absurd hpf (by simp)
    rw [if_neg hex] at hpf
    obtain rfl := (Option.some.injEq _ _).mp hpf.symm
    refine ⟨rfl, rfl, ?_⟩
    refine ⟨(monthLogsFor s emp monthStart monthEnd).foldl
      (fun sum log => sum + log.totalHours) 0, ?_, rfl, rfl, rfl, rfl, ?_, ?_, rfl⟩
    · rw [foldl_add_totalHours, zero_add, monthLogsFor_eq_spec]
    · intro hnone
      simp only [hnone]
      simp
    · intro o ho hne
      simp only [ho]
      simp [hne]

theorem payrollFor_sPayA :
    payrollFor sPayA "2025-09" 0 30 adminW 999 aliW = some entryA := by
  norm_num [payrollFor, monthLogsFor, sPayA, aliW, adminW, tlogA1, tlogA2,
    emptyState, entryA]
  decide

theorem payrollFor_sPayB :
    payrollFor sPayB "2025-09" 0 30 adminW 999 aliUsed1 = some entryB := by
  norm_num [payrollFor, monthLogsFor, sPayB, sPayA, aliUsed1, aliW, adminW,
    tlogA1, tlogA2, emptyState, entryB, entryA]
  decide

theorem mem_processPayroll_sPayA :
    entryA ∈ (handleProcessPayroll adminW "2025-09" 0 30 999 sPayA).payrollEntries := by
  have hfm : sPayA.employees.filterMap (payrollFor sPayA "2025-09" 0 30 adminW 999)
      = [entryA] := by
    show List.filterMap _ [aliW] = _
    simp only [List.filterMap_cons, List.filterMap_nil, payrollFor_sPayA]
  simp only [handleProcessPayroll, hfm]
  simp

theorem mem_processPayroll_sPayB :
    entryB ∈ (handleProcessPayroll adminW "2025-09" 0 30 999 sPayB).payrollEntries := by
  have hfm : sPayB.employees.filterMap (payrollFor sPayB "2025-09" 0 30 adminW 999)
      = [entryB] := by
    show List.filterMap _ [aliUsed1] = _
    simp only [List.filterMap_cons, List.filterMap_nil, payrollFor_sPayB]
  simp only [handleProcessPayroll, hfm]
  simp

/-- Witness for C1: the spec's overtime-suppression and pay examples.
With 90 worked hours, target 80, one unused comp leave: regular 80,
overtime 0.  Same inputs with the comp leave used: overtime 10 paid at
5000 × 1.25 = 62500, total 462500. -/
theorem payroll_entry_formulas_witness :
    (∃ emp ∈ sPayA.employees,
      entryA.employeeId = emp.id ∧ entryA.month = "2025-09" ∧
      ∃ tot : ℚ,
        tot = ((sPayA.timeLogs.filter (fun l =>
            decide (l.employeeId = emp.id ∧ 0 ≤ l.date ∧ l.date ≤ 30 ∧
              l.checkOut ≠ none))).map TimeLog.totalHours).sum ∧
        entryA.regularHours = min tot emp.monthlyHourTarget ∧
        entryA.overtimeHours =
          (if tot > emp.monthlyHourTarget ∧
              emp.compLeavesEarned - emp.compLeavesUsed ≤ 0 then
            tot - emp.monthlyHourTarget
          else 0) ∧
        entryA.regularPay = entryA.regularHours * emp.hourlyRate ∧
        entryA.totalPay = entryA.regularPay + entryA.overtimePay ∧
        (sPayA.overtimeSettings.find? (fun o => o.employeeId == emp.id) = none →
          entryA.overtimePay = entryA.overtimeHours * emp.hourlyRate) ∧
        (∀ o, sPayA.overtimeSettings.find? (fun o => o.employeeId == emp.id) = some o →
          o.overtimeMultiplier ≠ 0 →
          entryA.overtimePay = entryA.overtimeHours * emp.hourlyRate *
            o.overtimeMultiplier) ∧
        entryA.status = .pending) ∧
    entryB ∈ (handleProcessPayroll adminW "2025-09" 0 30 999 sPayB).payrollEntries ∧
    entryA.regularHours = 80 ∧ entryA.overtimeHours = 0 ∧
    entryB.overtimeHours = 10 ∧ entryB.overtimePay = 62500 ∧
    entryB.totalPay = 462500 :=
  ⟨payroll_entry_formulas adminW "2025-09" 0 30 999 sPayA entryA
      mem_processPayroll_sPayA (by decide),
    mem_processPayroll_sPayB, by decide, by decide, by decide, by decide, by decide⟩

theorem isEmpty_false_of_ne_nil {l : List PayrollEntry} (h : l ≠ []) :
    l.isEmpty = false := by
  cases l with
  | nil => exact absurd rfl h
  | cons a as => rfl

theorem payrollFor_eq_none_iff (s : HRMState) (month : String)
    (monthStart monthEnd : Day) (actor : Employee) (now : Time)
    (emp : Employee) :
    payrollFor s month monthStart monthEnd actor now emp = none
      ↔ (s.payrollEntries.find?
          (fun p => p.employeeId == emp.id && p.month == month)).isSome := by
  unfold payrollFor
  by_cases hex : (s.payrollEntries.find?
      (fun p => p.employeeId == emp.id && p.month == month)).isSome
  · simp [hex]
  · simp [hex]

theorem payrollFor_some_fields {s : HRMState} {month : String}
    {monthStart monthEnd : Day} {actor : Employee} {now : Time}
    {emp : Employee} {entry : PayrollEntry}
    (h : payrollFor s month monthStart monthEnd actor now emp = some entry) :
    entry.employeeId = emp.id ∧ entry.month = month ∧
      s.payrollEntries.find? (fun p => p.employeeId == emp.id && p.month == month)
        = none := by
  unfold payrollFor at h
  by_cases hex : (s.payrollEntries.find?
      (fun p => p.employeeId == emp.id && p.month == month)).isSome
  · rw [if_pos hex] at h
    exact absurd h (by simp)
  · rw [if_neg hex] at h
    obtain rfl := (Option.some.injEq _ _).mp h.symm
    exact ⟨rfl, rfl, Option.not_isSome_iff_eq_none.mp hex⟩

/-- Claim C2: `handleProcessPayroll` skips every employee who already has a
`(employee, month)` entry, so running it a second time with identical inputs
(at any later timestamp) changes nothing; an employee with an existing entry
for the month gains no further entries; and when every employee already has
one, the call is a pure no-op on the state. -/
theorem processMonth_idempotent (actor : Employee) (month : String)
    (monthStart monthEnd : Day) (now₁ now₂ : Time) (s : HRMState) :
    (handleProcessPayroll actor month monthStart monthEnd now₂
        (handleProcessPayroll actor month monthStart monthEnd now₁ s)
      = handleProcessPayroll actor month monthStart monthEnd now₁ s) ∧
    (∀ eid, (∃ p ∈ s.payrollEntries, p.employeeId = eid ∧ p.month = month) →
      (handleProcessPayroll actor month monthStart monthEnd now₁
          s).payrollEntries.filter
            (fun p => p.employeeId == eid && p.month == month)
        = s.payrollEntries.filter
            (fun p => p.employeeId == eid && p.month == month)) ∧
    ((∀ emp ∈ s.employees,
        ∃ p ∈ s.payrollEntries, p.employeeId = emp.id ∧ p.month = month) →
      handleProcessPayroll actor month monthStart monthEnd now₁ s = s) := by
  refine ⟨?_, ?_, ?_⟩
  · rcases eq_or_ne
        (s.employees.filterMap (payrollFor s month monthStart monthEnd actor now₁))
        [] with hnil | hne
    · have h1 : handleProcessPayroll actor month monthStart monthEnd now₁ s = s := by
        simp [handleProcessPayroll, hnil]
      rw [h1]
      have hnil₂ :
          s.employees.filterMap (payrollFor s month monthStart monthEnd actor now₂)
            = [] := by
        rw [List.filterMap_eq_nil_iff] at hnil ⊢
        intro emp hmem
        exact (payrollFor_eq_none_iff ..).mpr
          ((payrollFor_eq_none_iff ..).mp (hnil emp hmem))
      simp [handleProcessPayroll, hnil₂]
    · have hE := isEmpty_false_of_ne_nil hne
      have h1 : handleProcessPayroll actor month monthStart monthEnd now₁ s
          = { s with
              payrollEntries := s.payrollEntries ++
                s.employees.filterMap
                  (payrollFor s month monthStart monthEnd actor now₁)
              auditLogs := s.auditLogs ++
                [mkAudit now₁ actor "Payroll Processed" "Payroll" month
                  ("Processed payroll for " ++
                    toString (s.employees.filterMap
                      (payrollFor s month monthStart monthEnd actor now₁)).length ++
                    " employees")] } := by
        simp [handleProcessPayroll, hE]
      rw [h1]
      have hnil₂ : s.employees.filterMap
          (payrollFor
            { s with
              payrollEntries := s.payrollEntries ++
                s.employees.filterMap
                  (payrollFor s month monthStart monthEnd actor now₁)
              auditLogs := s.auditLogs ++
                [mkAudit now₁ actor "Payroll Processed" "Payroll" month
                  ("Processed payroll for " ++
                    toString (s.employees.filterMap
                      (payrollFor s month monthStart monthEnd actor now₁)).length ++
                    " employees")] }
            month monthStart monthEnd actor now₂) = [] := by
        rw [List.filterMap_eq_nil_iff]
        intro emp hmem
        rw [payrollFor_eq_none_iff]
        rw [List.find?_isSome]
        by_cases hfind : (s.payrollEntries.find?
            (fun p => p.employeeId == emp.id && p.month == month)).isSome
        · obtain ⟨p, hp, hpp⟩ := List.find?_isSome.mp hfind
          exact ⟨p, List.mem_append_left _ hp, hpp⟩
        · have hsome : ∃ entry,
              payrollFor s month monthStart monthEnd actor now₁ emp = some entry := by
            rcases hopt : payrollFor s month monthStart monthEnd actor now₁ emp with
              _ | entry
            · exact absurd ((payrollFor_eq_none_iff ..).mp hopt) hfind
            · exact ⟨entry, rfl⟩
          obtain ⟨entry, hentry⟩ := hsome
          obtain ⟨hid, hm, -⟩ := payrollFor_some_fields hentry
          refine ⟨entry, List.mem_append_right _
            (List.mem_filterMap.mpr ⟨emp, hmem, hentry⟩), ?_⟩
          simp [hid, hm]
      simp [handleProcessPayroll, hnil₂]
  · intro eid hp
    obtain ⟨p0, hp0, hpe, hpm⟩ := hp
    rcases eq_or_ne
        (s.employees.filterMap (payrollFor s month monthStart monthEnd actor now₁))
        [] with hnil | hne
    · simp [handleProcessPayroll, hnil]
    · have hE := isEmpty_false_of_ne_nil hne
      have hfltnil : (s.employees.filterMap
          (payrollFor s month monthStart monthEnd actor now₁)).filter
            (fun p => p.employeeId == eid && p.month == month) = [] := by
        rw [List.filter_eq_nil_iff]
        intro x hx hqx
        obtain ⟨emp, hmem, hentry⟩ := List.mem_filterMap.mp hx
        obtain ⟨hid, hm, hnone⟩ := payrollFor_some_fields hentry
        have heid : emp.id = eid := by
          have := (Bool.and_eq_true ..).mp hqx
          have h1 := beq_iff_eq.mp this.1
          rw [hid] at h1
          exact h1
        have := List.find?_eq_none.mp hnone p0 hp0
        exact this (by simp [hpe, hpm, heid])
      simp [handleProcessPayroll, hE, List.filter_append, hfltnil]
  · intro hall
    have hnil : s.employees.filterMap
        (payrollFor s month monthStart monthEnd actor now₁) = [] := by
      rw [List.filterMap_eq_nil_iff]
      intro emp hmem
      rw [payrollFor_eq_none_iff, List.find?_isSome]
      obtain ⟨p, hp, hid, hm⟩ := hall emp hmem
      exact ⟨p, hp, by simp [hid, hm]⟩
    simp [handleProcessPayroll, hnil]

/-- Witness for C2: after the concrete first run over `sPayA`, every
employee has an entry for 2025-09, so a second run is a no-op. -/
theorem processMonth_idempotent_witness :
    (handleProcessPayroll adminW "2025-09" 0 30 777
        (handleProcessPayroll adminW "2025-09" 0 30 999 sPayA)
      = handleProcessPayroll adminW "2025-09" 0 30 999 sPayA) ∧
    (handleProcessPayroll adminW "2025-09" 0 30 999 sHasEntry = sHasEntry) :=
  ⟨(processMonth_idempotent adminW "2025-09" 0 30 999 777 sPayA).1,
    (processMonth_idempotent adminW "2025-09" 0 30 999 777 sHasEntry).2.2 (by decide)⟩

/-- Claim C9: every successful mutating operation appends exactly one new
audit record in the same state transition, carrying the acting user's id and
name and the affected entity's id (so N successful mutations append N
records); an operation that fails its precondition returns the state
unchanged and appends nothing (for the `Except`-typed handlers the error
result means `onUpdateState` was never invoked, so no state was produced at
all). -/
theorem audit_one_per_mutation
    (actor newEmp : Employee) (today : Day) (now : Time) (s : HRMState)
    (d reason startDate endDate month changedKeys commentText : String)
    (taskId leaveId eid payrollId : String)
    (h mult : ℚ) (days : Int) (monthStart monthEnd : Day)
    (approved : Bool) (withComment comment : Option String)
    (updE : Employee → Employee) (updP : PayrollEntry → PayrollEntry) :
    ((todayLogFor s actor.id today).isSome = false →
      ∃ s', handleCheckIn actor today now s = .ok s' ∧
        appendsOneAudit s s' actor ("log_" ++ toString now)) ∧
    ((todayLogFor s actor.id today).isSome = true →
      handleCheckIn actor today now s = .error .DuplicateCheckIn) ∧
    (∀ log, todayLogFor s actor.id today = some log → log.checkOut = none →
      tasksForDay s actor.id today ≠ [] →
      ∃ s', handleCheckOut actor today now s = .ok s' ∧
        appendsOneAudit s s' actor log.id) ∧
    (∀ log, todayLogFor s actor.id today = some log → log.checkOut = none →
      log.breaks.any (fun b => b.breakOut.isNone) = false →
      ∃ s', handleBreakIn actor today now s = .ok s' ∧
        appendsOneAudit s s' actor log.id) ∧
    (∀ log, todayLogFor s actor.id today = some log →
      log.breaks.all (fun b => b.breakOut.isSome) = false →
      ∃ s', handleBreakOut actor today now s = .ok s' ∧
        appendsOneAudit s s' actor log.id) ∧
    appendsOneAudit s (handleAddTask actor today d h now s) actor
      ("task_" ++ toString now) ∧
    (∀ task, s.tasks.find? (fun t => t.id == taskId) = some task →
      appendsOneAudit s (handleDeleteTask actor taskId now s) actor taskId) ∧
    (s.tasks.find? (fun t => t.id == taskId) = none →
      handleDeleteTask actor taskId now s = s) ∧
    appendsOneAudit s (handleApproveTask actor taskId withComment now s) actor
      taskId ∧
    (strTrim commentText ≠ "" →
      appendsOneAudit s (handleCommentTask actor taskId commentText now s) actor
        taskId) ∧
    (strTrim commentText = "" →
      handleCommentTask actor taskId commentText now s = s) ∧
    appendsOneAudit s (handleRequestLeave actor startDate endDate reason now s)
      actor ("leave_" ++ toString now) ∧
    (∀ leave emp, s.leaveRequests.find? (fun l => l.id == leaveId) = some leave →
      s.employees.find? (fun e => e.id == leave.employeeId) = some emp →
      appendsOneAudit s (handleApproveLeave actor leaveId approved comment now s)
        actor leaveId) ∧
    (s.leaveRequests.find? (fun l => l.id == leaveId) = none →
      handleApproveLeave actor leaveId approved comment now s = s) ∧
    appendsOneAudit s (handleCreateEmployee actor newEmp now s) actor
      ("emp_" ++ toString now) ∧
    appendsOneAudit s (handleUpdateEmployee actor eid updE changedKeys now s)
      actor eid ∧
    (∀ emp, s.employees.find? (fun e => e.id == eid) = some emp →
      appendsOneAudit s (handleDeleteEmployee actor eid now s) actor eid) ∧
    (s.employees.find? (fun e => e.id == eid) = none →
      handleDeleteEmployee actor eid now s = s) ∧
    appendsOneAudit s (handleGrantCompLeave actor eid days now s) actor eid ∧
    appendsOneAudit s (handleUpdateOvertimeSettings actor eid mult now s) actor
      eid ∧
    (s.employees.filterMap (payrollFor s month monthStart monthEnd actor now) ≠ [] →
      appendsOneAudit s (handleProcessPayroll actor month monthStart monthEnd now s)
        actor month) ∧
    (s.employees.filterMap (payrollFor s month monthStart monthEnd actor now) = [] →
      handleProcessPayroll actor month monthStart monthEnd now s = s) ∧
    appendsOneAudit s (handleUpdatePayroll actor payrollId updP changedKeys now s)
      actor payrollId := by
  refine ⟨?_, ?_, ?_, ?_, ?_, ?_, ?_, ?_, ?_, ?_, ?_, ?_, ?_, ?_, ?_, ?_, ?_,
    ?_, ?_, ?_, ?_, ?_, ?_⟩
  · intro hnone
    exact ⟨checkInApply actor today now s, by simp [handleCheckIn, hnone],
      ⟨_, rfl, rfl, rfl, rfl⟩⟩
  · intro hsome
    simp [handleCheckIn, hsome]
  · intro log hfind hopen htasks
    exact ⟨checkOutApply actor log now s, handleCheckOut_ok hfind hopen htasks,
      ⟨_, rfl, rfl, rfl, rfl⟩⟩
  · intro log hfind hopen hnobreak
    refine ⟨breakInApply actor log now s, ?_, ⟨_, rfl, rfl, rfl, rfl⟩⟩
    simp [handleBreakIn, hfind, hopen, hnobreak]
  · intro log hfind hactive
    refine ⟨breakOutApply actor log now s, ?_, ⟨_, rfl, rfl, rfl, rfl⟩⟩
    simp [handleBreakOut, hfind, hactive]
  · exact ⟨_, rfl, rfl, rfl, rfl⟩
  · intro task hfind
    simp only [handleDeleteTask, hfind]
    exact ⟨_, rfl, rfl, rfl, rfl⟩
  · intro hnone
    simp [handleDeleteTask, hnone]
  · exact ⟨_, rfl, rfl, rfl, rfl⟩
  · intro hcomment
    simp only [handleCommentTask, if_neg hcomment]
    exact ⟨_, rfl, rfl, rfl, rfl⟩
  · intro hcomment
    simp [handleCommentTask, hcomment]
  · exact ⟨_, rfl, rfl, rfl, rfl⟩
  · intro leave emp hleave hemp
    simp only [handleApproveLeave, hleave, hemp]
    exact ⟨_, rfl, rfl, rfl, rfl⟩
  · intro hnone
    simp [handleApproveLeave, hnone]
  · exact ⟨_, rfl, rfl, rfl, rfl⟩
  · exact ⟨_, rfl, rfl, rfl, rfl⟩
  · intro emp hfind
    simp only [handleDeleteEmployee, hfind]
    exact ⟨_, rfl, rfl, rfl, rfl⟩
  · intro hnone
    simp [handleDeleteEmployee, hnone]
  · exact ⟨_, rfl, rfl, rfl, rfl⟩
  · exact ⟨_, rfl, rfl, rfl, rfl⟩
  · intro hne
    simp only [handleProcessPayroll, isEmpty_false_of_ne_nil hne, if_false,
      Bool.false_eq_true]
    exact ⟨_, rfl, rfl, rfl, rfl⟩
  · intro hnil
    simp [handleProcessPayroll, hnil]
  · exact ⟨_, rfl, rfl, rfl, rfl⟩

/-- Witness for C9: over the concrete state, a duplicate check-in fails with
no transition, a break-end succeeds and appends exactly one audit record for
the time-log entry, and a comp-leave grant appends exactly one audit record
for the employee. -/
theorem audit_one_per_mutation_witness :
    handleCheckIn aliW 100 777 sTime = .error .DuplicateCheckIn ∧
    (∃ s', handleBreakOut aliW 100 777 sTime = .ok s' ∧
      appendsOneAudit sTime s' aliW logT.id) ∧
    appendsOneAudit sTime (handleGrantCompLeave aliW "emp_ali" 2 777 sTime)
      aliW "emp_ali" := by
  obtain ⟨c1, c2, c3, c4, c5, c6, c7, c8, c9, c10, c11, c12, c13, c14, c15, c16,
    c17, c18, c19, c20, c21, c22, c23⟩ :=
    audit_one_per_mutation aliW aliW 100 777 sTime "d" "r" "2025-01-01"
      "2025-01-02" "2025-09" "k" "c" "task_1" "leave_1" "emp_ali" "p1" 1 2 2 0 30
      true none none id id
  exact ⟨c2 (by decide), c5 logT (by decide) (by decide), c19⟩

end HRM
